import Mathlib

/-!
Verification development for the Metview Python marshaling layer
(`mpy/metview.py`): the argument encoder / stack protocol, the tagged
result decoder, and the Request entity.

Modelling conventions:
* Engine FFI calls (`lib.p_*`) are side effects on the engine; we model an
  encoding run as the list of FFI calls it performs (`Op`) together with an
  `Except` result (a raised Python exception is `.error`).
* Engine pointers (cffi `cdata`) are modelled as `Nat`; the NULL pointer is
  `0` (a NULL cffi pointer is falsy in Python, like `None`).
* Python `float` payloads are modelled as `Rat`; no claim depends on
  floating-point rounding, only on which numeric frame is pushed.
* A Python `bool` is a separate constructor `PyVal.bool`, but Python's
  `isinstance(b, int)` is `True` for booleans, so in the encoder dispatch the
  `bool` case is the translation of the source's `isinstance(n, int)` branch
  (`lib.p_push_number(float(n))`, with `float(True) = 1.0`,
  `float(False) = 0.0`); `isinstance(b, float)` is `False`, so the `float`
  branch never captures a bool.
-/

-- Python uses 0-based indexing, Metview uses 1-based indexing
-- (source: `python_to_mv_index`)
def python_to_mv_index (pi : Int) : Int :=
  pi + 1

mutual

/-- Host-side values that can cross the boundary (the dynamic kinds that
`push_arg` dispatches on, plus decoded results). `other kind` stands for any
Python object of a kind outside the encoder's supported set, carrying the
name of its type. -/
inductive PyVal where
  | float (x : Rat)
  | int (i : Int)
  | bool (b : Bool)
  | str (s : String)
  | req (r : MvRequest)
  | dict (entries : List (String × PyVal))
  | fieldset (h : Nat) (url : String)
  | bufr (h : Nat) (url : String)
  | geopoints (h : Nat) (url : String)
  | netcdf (h : Nat) (url : String)
  | list (xs : List PyVal)
  | tuple (xs : List PyVal)
  | pynone
  | other (kind : String)

/-- The `Request` entity: ordered key/value entries tagged with a verb and an
optional retained engine pointer (`val_pointer`, `none` = Python `None`). -/
inductive MvRequest where
  | mk (verb : String) (entries : List (String × PyVal)) (val_pointer : Option Nat)

end

def MvRequest.verb : MvRequest → String
  | .mk v _ _ => v

def MvRequest.entries : MvRequest → List (String × PyVal)
  | .mk _ e _ => e

def MvRequest.val_pointer : MvRequest → Option Nat
  | .mk _ _ p => p

/-! Structural rank used as the termination measure of the encoder: container
kinds weigh `2 +` the weight of their contents, each list cell weighs `1`. -/

mutual

def PyVal.rank : PyVal → Nat
  | .list xs => 2 + rankList xs
  | .tuple xs => 2 + rankList xs
  | .dict d => 2 + rankEntries d
  | .req (.mk _ d _) => 2 + rankEntries d
  | _ => 0

def rankList : List PyVal → Nat
  | [] => 0
  | x :: xs => 1 + PyVal.rank x + rankList xs

def rankEntries : List (String × PyVal) → Nat
  | [] => 0
  | (_, v) :: d => 1 + PyVal.rank v + rankEntries d

end

/-- Normalisation a Request applies to a single stored value: Python booleans
become the engine's on/off vocabulary (source: `Request.to_metview_style`). -/
def to_metview_style_val : PyVal → PyVal
  | .bool b => .str (if b then "on" else "off")
  | v => v

/-- Source `Request.to_metview_style` applied to copied-in entries. The input
models a Python dict, whose keys are necessarily distinct, so the in-place
per-key reassignment of the source is a pointwise map. -/
def to_metview_style (d : List (String × PyVal)) : List (String × PyVal) :=
  d.map fun kv => (kv.1, to_metview_style_val kv.2)

/-- `Request.__init__` on a plain host-side dict: entries copied in and
normalised, verb left at the class default `"UNKNOWN"`, no retained pointer. -/
def MvRequest.fromDict (d : List (String × PyVal)) : MvRequest :=
  .mk "UNKNOWN" (to_metview_style d) Option.none

/-- `Request.__init__` on a source that is itself a Request: same as the dict
path but the verb is inherited from the source. -/
def MvRequest.fromRequest (src : MvRequest) : MvRequest :=
  .mk src.verb (to_metview_style src.entries) Option.none

lemma rank_req (r : MvRequest) :
    PyVal.rank (.req r) = 2 + rankEntries r.entries := by
  cases r
  simp [PyVal.rank, MvRequest.entries]

lemma rank_to_metview_style_val (v : PyVal) :
    (to_metview_style_val v).rank ≤ v.rank := by
  cases v
  case bool b => cases b <;> simp [to_metview_style_val, PyVal.rank]
  all_goals simp [to_metview_style_val]

lemma rankEntries_to_metview_style (d : List (String × PyVal)) :
    rankEntries (to_metview_style d) ≤ rankEntries d := by
  induction d with
  | nil => simp [to_metview_style, rankEntries]
  | cons kv rest ih =>
      obtain ⟨k, v⟩ := kv
      simp only [to_metview_style, List.map_cons, rankEntries] at *
      have := rank_to_metview_style_val v
      omega

/-- The engine-side FFI calls the encoder performs, with their meaningful
arguments. `p_push_request_ptr` and `p_push_request_built` are both the
source's `lib.p_push_request`, distinguished by whether the argument is the
Request's retained `val_pointer` or the request freshly built by the
preceding `p_new_request`/`p_set_request_value_from_pop` calls. -/
inductive Op where
  | p_push_number (x : Rat)
  | p_push_string (s : String)
  | p_push_value (h : Nat)
  | p_new_request (verb : String)
  | p_set_request_value_from_pop (key : String)
  | p_push_request_ptr (h : Nat)
  | p_push_request_built
  | p_new_list (n : Nat)
  | p_add_value_from_pop_to_list (i : Nat)
  | p_push_list
  | p_call_function (fname : String) (nargs : Nat)
  deriving Repr, DecidableEq

/-- Python exceptions the marshaling layer can raise. -/
inductive MvError where
  | exception (msg : String)
  | typeError (kind : String)
  deriving Repr, DecidableEq

/-- Python truthiness of `Request.val_pointer`: `None` and a NULL cffi
pointer are falsy, any other pointer is truthy. -/
def reqTruthy : Option Nat → Bool
  | Option.none => false
  | some h => h != 0

/-- Source `push_str` (via `push_bytes`): one `p_push_string` frame. -/
def push_str (s : String) : List Op :=
  [Op.p_push_string s]

mutual

/-- Source `push_arg(n, name)`: dispatch on the dynamic kind of `n`, pushing
one stack frame and returning `nargs = 1`, or raising `TypeError` for an
unsupported kind. The `bool` case is Python's `isinstance(n, int)` branch
(bool is an int in Python); `pynone` and `other` fall through every
`isinstance` test to the `TypeError`. -/
def push_arg : PyVal → List Op × Except MvError Nat
  | .float x => ([Op.p_push_number x], .ok 1)
  | .int i => ([Op.p_push_number (i : Rat)], .ok 1)
  | .bool b => ([Op.p_push_number (if b then 1 else 0)], .ok 1)
  | .str s => (push_str s, .ok 1)
  | .req r =>
      let (t, e) := MvRequest.push r
      (t, e.map fun _ => 1)
  | .dict d =>
      let (t, e) := MvRequest.push (MvRequest.fromDict d)
      (t, e.map fun _ => 1)
  | .fieldset h _ => ([Op.p_push_value h], .ok 1)
  | .bufr h _ => ([Op.p_push_value h], .ok 1)
  | .geopoints h _ => ([Op.p_push_value h], .ok 1)
  | .netcdf h _ => ([Op.p_push_value h], .ok 1)
  | .list xs =>
      let (t, e) := push_list xs
      (t, e.map fun _ => 1)
  | .tuple xs =>
      let (t, e) := push_list xs
      (t, e.map fun _ => 1)
  | .pynone => ([], .error (.typeError "NoneType"))
  | .other kind => ([], .error (.typeError kind))
termination_by v => v.rank
decreasing_by
  · simp [rank_req]
  · simp only [MvRequest.fromDict, MvRequest.entries, PyVal.rank]
    have := rankEntries_to_metview_style d
    omega
  · simp [PyVal.rank]
  · simp [PyVal.rank]

/-- Source `push_list`: allocate an engine list of the host list's length,
then push each element and pop it into the list; finally push the finished
list (skipped if an element's push raised). -/
def push_list (xs : List PyVal) : List Op × Except MvError Unit :=
  let (t, e) := push_list_from xs 0
  match e with
  | .ok _ => (Op.p_new_list xs.length :: (t ++ [Op.p_push_list]), .ok ())
  | .error err => (Op.p_new_list xs.length :: t, .error err)
termination_by 1 + rankList xs
decreasing_by
  · omega

/-- The element loop of `push_list`: `for i, val in enumerate(lst)`. -/
def push_list_from : List PyVal → Nat → List Op × Except MvError Unit
  | [], _ => ([], .ok ())
  | x :: rest, i =>
      let (t, e) := push_arg x
      match e with
      | .error err => (t, .error err)
      | .ok _ =>
          let (t2, e2) := push_list_from rest (i + 1)
          (t ++ [Op.p_add_value_from_pop_to_list i] ++ t2, e2)
termination_by xs _ => rankList xs
decreasing_by
  · simp only [rankList]
    omega
  · simp only [rankList]
    omega

/-- Source `Request.push`: a truthy retained `val_pointer` is forwarded
directly; otherwise a fresh engine-side request is built by pushing each
key/value pair, then pushed. -/
def MvRequest.push (r : MvRequest) : List Op × Except MvError Unit :=
  if reqTruthy r.val_pointer then
    ([Op.p_push_request_ptr (r.val_pointer.getD 0)], .ok ())
  else
    let (t, e) := request_push_entries r.entries
    match e with
    | .ok _ => (Op.p_new_request r.verb :: (t ++ [Op.p_push_request_built]), .ok ())
    | .error err => (Op.p_new_request r.verb :: t, .error err)
termination_by 1 + rankEntries r.entries
decreasing_by
  · omega

/-- The entry loop of `Request.push`: each value is pushed and bound to its
key on the freshly built engine request. -/
def request_push_entries : List (String × PyVal) → List Op × Except MvError Unit
  | [] => ([], .ok ())
  | (k, v) :: rest =>
      let (t, e) := push_arg v
      match e with
      | .error err => (t, .error err)
      | .ok _ =>
          let (t2, e2) := request_push_entries rest
          (t ++ [Op.p_set_request_value_from_pop k] ++ t2, e2)
termination_by d => rankEntries d
decreasing_by
  · simp only [rankEntries]
    omega
  · simp only [rankEntries]
    omega

end

/-! The named-call layer: `_call_function` and `dict_to_pushed_args`. -/

/-- The positional-argument loop of `_call_function`: push each argument and
accumulate the returned argument counts; a raised exception propagates. -/
def push_args : List PyVal → List Op × Except MvError Nat
  | [] => ([], .ok 0)
  | a :: rest =>
      let (t, e) := push_arg a
      match e with
      | .error err => (t, .error err)
      | .ok n =>
          let (t2, e2) := push_args rest
          (t ++ t2, e2.map fun m => n + m)

/-- Source `dict_to_pushed_args(d)`: push each key (as a string frame) and
each value, then report `2 * len(d)` generated arguments. -/
def dict_to_pushed_args_loop : List (String × PyVal) → List Op × Except MvError Unit
  | [] => ([], .ok ())
  | (k, v) :: rest =>
      let (t, e) := push_arg v
      match e with
      | .error err => (push_str k ++ t, .error err)
      | .ok _ =>
          let (t2, e2) := dict_to_pushed_args_loop rest
          (push_str k ++ t ++ t2, e2)

def dict_to_pushed_args (d : MvRequest) : List Op × Except MvError Nat :=
  let (t, e) := dict_to_pushed_args_loop d.entries
  (t, e.map fun _ => 2 * d.entries.length)

/-- Source `_call_function(name, *args, **kwargs)`: push every positional
argument, then — when keyword arguments are present — fold them into one
Request and push its key/value pairs, finally invoke the engine function
with the accumulated argument count. -/
def _call_function (fname : String) (args : List PyVal)
    (kwargs : List (String × PyVal)) : List Op × Except MvError Unit :=
  let (t, e) := push_args args
  match e with
  | .error err => (t, .error err)
  | .ok n =>
      if 0 < kwargs.length then
        let (t2, e2) := dict_to_pushed_args (MvRequest.fromDict kwargs)
        match e2 with
        | .error err => (t ++ t2, .error err)
        | .ok dn => (t ++ t2 ++ [Op.p_call_function fname (n + dn)], .ok ())
      else
        (t ++ [Op.p_call_function fname n], .ok ())

/-! The engine side of a Request handle and the `Request.__init__` decode
path. -/

/-- The engine-resident content behind a request handle: the verb
(`p_get_req_verb`), the enumerable parameter names (`p_get_req_num_params` /
`p_get_req_param`), and the per-name value lookup (`p_get_req_value`, which
can return NULL — modelled as an absent entry in `values`). -/
structure EngineRequest where
  verb : String
  params : List String
  values : List (String × String)
  deriving Repr, DecidableEq

def EngineRequest.value (er : EngineRequest) (p : String) : Option String :=
  (er.values.find? fun kv => kv.1 == p).map Prod.snd

/-- Python dict assignment `d[k] = v` on an ordered association list:
overwrite every pairing of `k` in place if one exists, otherwise append. -/
def dictInsert (entries : List (String × PyVal)) (k : String) (v : PyVal) :
    List (String × PyVal) :=
  if entries.any fun kv => kv.1 == k then
    entries.map fun kv => if kv.1 == k then (kv.1, v) else kv
  else
    entries ++ [(k, v)]

/-- `Request.__init__` on an engine-resident handle: the verb and every
enumerated parameter are pulled eagerly; a parameter whose value lookup is
NULL is skipped (`if raw_val != ffi.NULL`), the rest are stored as decoded
strings. The handle is retained as `val_pointer`. -/
def MvRequest.fromHandle (er : EngineRequest) (h : Nat) : MvRequest :=
  .mk er.verb
    (er.params.foldl
      (fun acc p =>
        match er.value p with
        | some v => dictInsert acc p (.str v)
        | Option.none => acc)
      [])
    (some h)

/-! The tagged wire value and the decoder `value_from_metview`. -/

/-- An engine-produced tagged value as seen through the FFI accessors:
`tag` is `p_value_type`, `ptr` the value pointer itself, `num`/`strVal`
the scalar payloads, `reqPtr`/`ereq` the request handle returned by
`p_value_as_request` and its content, `elts` the elements behind
`p_value_as_list`, `errMsg` the `p_error_message` payload, and `dataPath`
the file path `p_data_path` resolves for the handle. -/
inductive EngineValue where
  | mk (tag : Int) (ptr : Nat) (num : Rat) (strVal : String) (reqPtr : Nat)
      (ereq : EngineRequest) (elts : List EngineValue) (errMsg : String)
      (dataPath : String)

def EngineValue.tag : EngineValue → Int
  | .mk t _ _ _ _ _ _ _ _ => t

def EngineValue.ptr : EngineValue → Nat
  | .mk _ p _ _ _ _ _ _ _ => p

def EngineValue.num : EngineValue → Rat
  | .mk _ _ n _ _ _ _ _ _ => n

def EngineValue.strVal : EngineValue → String
  | .mk _ _ _ s _ _ _ _ _ => s

def EngineValue.reqPtr : EngineValue → Nat
  | .mk _ _ _ _ rp _ _ _ _ => rp

def EngineValue.ereq : EngineValue → EngineRequest
  | .mk _ _ _ _ _ er _ _ _ => er

def EngineValue.elts : EngineValue → List EngineValue
  | .mk _ _ _ _ _ _ es _ _ => es

def EngineValue.errMsg : EngineValue → String
  | .mk _ _ _ _ _ _ _ m _ => m

def EngineValue.dataPath : EngineValue → String
  | .mk _ _ _ _ _ _ _ _ p => p

mutual

/-- Source `value_from_metview(val)`: dispatch on the wire tag. Tags 2, 4,
5 and 7 build the matching File-Backed Value (which eagerly resolves its
`p_data_path` url), tag 3 builds a Request from the handle, tag 6 decodes
every element recursively, tag 8 is Python `None`, tag 9 raises with the
engine's error message prefixed by `'Metview error: '`, and any other tag
raises the unhandled-return-type error. -/
def value_from_metview (val : EngineValue) : Except MvError PyVal :=
  match val with
  | .mk tag ptr num strVal reqPtr ereq elts errMsg dataPath =>
    if tag = 0 then .ok (.float num)
    else if tag = 1 then .ok (.str strVal)
    else if tag = 2 then .ok (.fieldset ptr dataPath)
    else if tag = 3 then .ok (.req (MvRequest.fromHandle ereq reqPtr))
    else if tag = 4 then .ok (.bufr ptr dataPath)
    else if tag = 5 then .ok (.geopoints ptr dataPath)
    else if tag = 6 then
      match list_from_metview elts with
      | .ok xs => .ok (.list xs)
      | .error err => .error err
    else if tag = 7 then .ok (.netcdf ptr dataPath)
    else if tag = 8 then .ok .pynone
    else if tag = 9 then .error (.exception ("Metview error: " ++ errMsg))
    else .error (.exception "value_from_metview got an unhandled return type")

/-- Source `list_from_metview(mlist)`: decode each element in order; a
per-element failure propagates and defeats the whole list. -/
def list_from_metview : List EngineValue → Except MvError (List PyVal)
  | [] => .ok []
  | v :: rest =>
      match value_from_metview v with
      | .error err => .error err
      | .ok hv =>
          match list_from_metview rest with
          | .error err => .error err
          | .ok tl => .ok (hv :: tl)

end

/-! Request subscripting. -/

/-- A deferred named engine call, as produced by the `make(name)` bindings:
the function name and the host arguments it will encode and invoke with. -/
structure EngineCall where
  fname : String
  callArgs : List PyVal

/-- Source `subset = make('[]')` applied to two arguments: the engine's
generic subscript operation. -/
def subset (a b : PyVal) : EngineCall :=
  ⟨"[]", [a, b]⟩

/-- Source `Request.__getitem__`: an `int` index (which in Python includes a
bool, since `isinstance(True, int)` holds and `True + 1 == 2`) is shifted to
1-based and delegated to `subset`; every other key is delegated to `subset`
unchanged. Plain mapping lookup is never used. -/
def MvRequest.getitem (r : MvRequest) (index : PyVal) : EngineCall :=
  match index with
  | .int i => subset (.req r) (.int (python_to_mv_index i))
  | .bool b => subset (.req r) (.int (python_to_mv_index (if b then 1 else 0)))
  | _ => subset (.req r) index

/-! Helper lemmas. -/

lemma except_map_ok {c a b : Type} (f : a → b) (e : Except c a) (y : b)
    (h : e.map f = .ok y) : ∃ x, e = .ok x ∧ y = f x := by
  cases e with
  | error err => simp [Except.map] at h
  | ok x => simp [Except.map] at h; exact ⟨x, rfl, h.symm⟩

lemma push_arg_ok_one (v : PyVal) (n : Nat) (h : (push_arg v).2 = .ok n) :
    n = 1 := by
  cases v <;> simp only [push_arg] at h
  case req r =>
    obtain ⟨x, _, hy⟩ := except_map_ok _ _ _ h
    exact hy
  case dict d =>
    obtain ⟨x, _, hy⟩ := except_map_ok _ _ _ h
    exact hy
  case list xs =>
    obtain ⟨x, _, hy⟩ := except_map_ok _ _ _ h
    exact hy
  case tuple xs =>
    obtain ⟨x, _, hy⟩ := except_map_ok _ _ _ h
    exact hy
  all_goals simp_all

/-! C5 and C10: encoder dispatch corner cases. -/

/-- C5: a value whose kind is outside the encoder's supported set (not a
float, int, string, Request, dict, Fieldset, Bufr, Geopoints, NetCDF, list
or tuple) makes `push_arg` raise a `TypeError` naming the offending kind,
and no stack frame at all is pushed for it. -/
theorem C5_unsupported_kind_type_error (kind : String) :
    push_arg (.other kind) = ([], .error (.typeError kind)) := by
  simp [push_arg]

/-- C10: a Python boolean passed as a top-level argument to the encoder hits
the integer branch of the dispatch (a bool is an int in Python), so it is
pushed as a numeric frame — `1` for `True`, `0` for `False` — and is neither
normalised to the on/off vocabulary (no string frame) nor rejected as an
unsupported kind. -/
theorem C10_toplevel_bool_numeric (b : Bool) :
    push_arg (.bool b) = ([Op.p_push_number (if b then 1 else 0)], .ok 1) ∧
    (∀ s, Op.p_push_string s ∉ (push_arg (.bool b)).1) ∧
    (∀ k, (push_arg (.bool b)).2 ≠ .error (.typeError k)) := by
  refine ⟨by simp [push_arg], ?_, ?_⟩
  · intro s
    simp [push_arg]
  · intro k
    simp [push_arg]

/-! C3: Request subscripting. -/

/-- C3: subscripting a Request with an integer `i` is delegated to the
engine's generic subscript operation (`subset`, the `'[]'` binding) with the
1-based index `i + 1`, and any other key is likewise delegated to the same
engine operation — plain mapping lookup is never performed. -/
theorem C3_getitem_delegates (r : MvRequest) (i : Int) (key : PyVal) :
    r.getitem (.int i) = subset (.req r) (.int (i + 1)) ∧
    (r.getitem key).fname = "[]" := by
  constructor
  · simp [MvRequest.getitem, python_to_mv_index]
  · cases key <;> simp [MvRequest.getitem, subset]

/-! C2: boolean normalisation in Requests. -/

/-- C2: every boolean value stored into a Request built from a host-side
mapping is normalised to the string `"on"` when true and `"off"` when
false. -/
theorem C2_request_bool_normalised (d : List (String × PyVal)) (k : String)
    (b : Bool) (h : (k, PyVal.bool b) ∈ d) :
    (k, PyVal.str (if b then "on" else "off")) ∈ (MvRequest.fromDict d).entries := by
  have hmem := List.mem_map_of_mem (fun kv => (kv.1, to_metview_style_val kv.2)) h
  simpa [MvRequest.fromDict, MvRequest.entries, to_metview_style,
    to_metview_style_val] using hmem

/-- Witness for C2 at the concrete mapping `{"flag": True}`. -/
theorem C2_witness :
    ("flag", PyVal.str "on") ∈ (MvRequest.fromDict [("flag", PyVal.bool true)]).entries := by
  have := C2_request_bool_normalised [("flag", PyVal.bool true)] "flag" true
    (List.mem_singleton.mpr rfl)
  simpa using this

/-! C1: the engine error tag. -/

/-- A concrete engine result carrying the error tag with engine message
`"bad parameter"`. -/
def errVal : EngineValue :=
  .mk 9 0 0 "" 0 ⟨"", [], []⟩ [] "bad parameter" ""

/-- C1 counterexample: decoding the error-tagged result whose engine message
is `"bad parameter"` raises an exception carrying
`"Metview error: bad parameter"`, which is not exactly the engine-reported
message — the source prefixes `'Metview error: '`. -/
theorem C1_counterexample :
    value_from_metview errVal = .error (.exception "Metview error: bad parameter") ∧
    "Metview error: bad parameter" ≠ "bad parameter" := by
  constructor
  · simp [value_from_metview, errVal]
  · decide

/-- C1 amended: for every engine result whose wire tag is the error tag, the
decoder raises an exception carrying the engine-reported message prefixed
with `'Metview error: '`, and never returns a value. -/
theorem C1_amended_error_raises (v : EngineValue) (h : v.tag = 9) :
    value_from_metview v = .error (.exception ("Metview error: " ++ v.errMsg)) ∧
    ∀ x, value_from_metview v ≠ .ok x := by
  obtain ⟨tag, ptr, num, strVal, reqPtr, ereq, elts, errMsg, dataPath⟩ := v
  simp only [EngineValue.tag] at h
  subst h
  constructor
  · simp [value_from_metview, EngineValue.errMsg]
  · intro x
    simp [value_from_metview]

/-- Witness for C1 at the concrete error value. -/
theorem C1_witness :
    value_from_metview errVal = .error (.exception ("Metview error: " ++ errVal.errMsg)) ∧
    ∀ x, value_from_metview errVal ≠ .ok x :=
  C1_amended_error_raises errVal rfl

/-! C9: eager pull of an engine-resident request. -/

lemma dictInsert_mem_self (acc : List (String × PyVal)) (k : String) (v : PyVal) :
    (k, v) ∈ dictInsert acc k v := by
  unfold dictInsert
  split
  · rename_i hany
    rw [List.any_eq_true] at hany
    obtain ⟨kv, hkv, hk⟩ := hany
    have hk1 : kv.1 = k := by simpa using hk
    have himg : (fun kv => if kv.1 == k then (kv.1, v) else kv) kv = (k, v) := by
      simp [hk1]
    exact himg ▸ List.mem_map_of_mem _ hkv
  · exact List.mem_append_right _ (List.mem_singleton.mpr rfl)

lemma dictInsert_mem_preserve {acc : List (String × PyVal)} {p : String}
    {w : PyVal} (hmem : (p, w) ∈ acc) (k : String) (v : PyVal)
    (hcase : p ≠ k ∨ w = v) : (p, w) ∈ dictInsert acc k v := by
  unfold dictInsert
  split
  · apply List.mem_map.mpr
    refine ⟨(p, w), hmem, ?_⟩
    by_cases hpk : p = k
    · rcases hcase with h1 | h2
      · exact absurd hpk h1
      · subst h2
        simp [hpk]
    · simp [hpk]
  · exact List.mem_append_left _ hmem

/-- The body of the parameter-pull loop of `Request.__init__` on a handle. -/
def pullStep (er : EngineRequest) (acc : List (String × PyVal)) (q : String) :
    List (String × PyVal) :=
  match er.value q with
  | some w => dictInsert acc q (.str w)
  | Option.none => acc

lemma fromHandle_entries_foldl (er : EngineRequest) (h : Nat) :
    (MvRequest.fromHandle er h).entries = er.params.foldl (pullStep er) [] := by
  have hfun : (fun (acc : List (String × PyVal)) (p : String) =>
      match er.value p with
      | some v => dictInsert acc p (.str v)
      | Option.none => acc) = pullStep er := by
    funext acc p
    rfl
  simp [MvRequest.fromHandle, MvRequest.entries, hfun]

lemma pull_loop_mem (er : EngineRequest) (ps : List String) :
    ∀ (acc : List (String × PyVal)) (p : String) (v : String),
      er.value p = some v →
      (p ∈ ps ∨ (p, PyVal.str v) ∈ acc) →
      (p, PyVal.str v) ∈ ps.foldl (pullStep er) acc := by
  induction ps with
  | nil =>
      intro acc p v _ hmem
      rcases hmem with hm | hm
      · exact absurd hm (List.not_mem_nil p)
      · simpa using hm
  | cons q ps ih =>
      intro acc p v hv hmem
      simp only [List.foldl_cons]
      apply ih (pullStep er acc q) p v hv
      rcases hmem with hmem | hmem
      · rcases List.mem_cons.mp hmem with heq | hps
        · subst heq
          right
          simp only [pullStep, hv]
          exact dictInsert_mem_self acc p (.str v)
        · left
          exact hps
      · right
        cases hq : er.value q with
        | none => simpa [pullStep, hq] using hmem
        | some w =>
            simp only [pullStep, hq]
            apply dictInsert_mem_preserve hmem
            by_cases hpq : p = q
            · right
              subst hpq
              rw [hv] at hq
              cases hq
              rfl
            · left
              exact hpq

/-- A concrete engine-resident request that reports one parameter, `"x"`,
whose value lookup returns NULL. -/
def er_null : EngineRequest := ⟨"VERB", ["x"], []⟩

/-- C9 counterexample: constructing a Request from a handle whose engine
content reports parameter `"x"` with a NULL value yields an empty mapping —
the reported parameter gets no entry, because the source skips parameters
whose `p_get_req_value` is NULL. -/
theorem C9_counterexample :
    "x" ∈ er_null.params ∧ (MvRequest.fromHandle er_null 7).entries = [] := by
  constructor
  · simp [er_null]
  · rfl

/-- C9 amended: a Request constructed from an engine-resident handle pulls
the verb and retains the handle, and its mapping contains an entry (with the
decoded string value) for every reported parameter whose engine-side value
lookup is non-NULL; NULL-valued parameters are skipped. -/
theorem C9_amended_eager_pull (er : EngineRequest) (h : Nat) (p : String)
    (v : String) (hp : p ∈ er.params) (hv : er.value p = some v) :
    (MvRequest.fromHandle er h).verb = er.verb ∧
    (MvRequest.fromHandle er h).val_pointer = some h ∧
    (p, PyVal.str v) ∈ (MvRequest.fromHandle er h).entries := by
  refine ⟨rfl, rfl, ?_⟩
  rw [fromHandle_entries_foldl]
  exact pull_loop_mem er er.params [] p v hv (Or.inl hp)

/-- Witness for C9 at a concrete engine request with one non-NULL
parameter. -/
theorem C9_witness :
    (MvRequest.fromHandle ⟨"RETRIEVE", ["PARAM"], [("PARAM", "t")]⟩ 3).verb = "RETRIEVE" ∧
    (MvRequest.fromHandle ⟨"RETRIEVE", ["PARAM"], [("PARAM", "t")]⟩ 3).val_pointer = some 3 ∧
    ("PARAM", PyVal.str "t") ∈
      (MvRequest.fromHandle ⟨"RETRIEVE", ["PARAM"], [("PARAM", "t")]⟩ 3).entries :=
  C9_amended_eager_pull ⟨"RETRIEVE", ["PARAM"], [("PARAM", "t")]⟩ 3 "PARAM" "t"
    (List.mem_singleton.mpr rfl) rfl

/-! C4: pushing a Request with a retained handle. -/

/-- C4: a Request holding a truthy (non-NULL) retained engine pointer is
pushed by forwarding that pointer directly — the trace is a single
`p_push_request` of the handle, with no engine-side request construction —
while a Request with no retained pointer is pushed by building a fresh
engine-side request (`p_new_request` with its verb, one
`p_set_request_value_from_pop` per key/value pair) and pushing that. -/
theorem C4_push_forwards_handle (r : MvRequest) :
    (∀ h, r.val_pointer = some h → h ≠ 0 →
      MvRequest.push r = ([Op.p_push_request_ptr h], .ok ()) ∧
      (∀ vb, Op.p_new_request vb ∉ (MvRequest.push r).1) ∧
      (∀ k, Op.p_set_request_value_from_pop k ∉ (MvRequest.push r).1)) ∧
    (reqTruthy r.val_pointer = false →
      MvRequest.push r =
        (Op.p_new_request r.verb ::
          ((request_push_entries r.entries).1 ++
            match (request_push_entries r.entries).2 with
            | .ok _ => [Op.p_push_request_built]
            | .error _ => []),
         (request_push_entries r.entries).2)) := by
  constructor
  · intro h hp hnz
    have hne : (h != 0) = true := by
      simpa using hnz
    have hpush : MvRequest.push r = ([Op.p_push_request_ptr h], .ok ()) := by
      rw [MvRequest.push, hp]
      simp [reqTruthy, hne]
    refine ⟨hpush, ?_, ?_⟩
    · intro vb
      simp [hpush]
    · intro k
      simp [hpush]
  · intro hf
    rw [MvRequest.push]
    simp only [hf, Bool.false_eq_true, if_false]
    cases he : (request_push_entries r.entries).2 with
    | ok u =>
        cases u
        simp [he]
    | error err => simp [he]

/-- Witness for C4: a Request with retained pointer `42` is pushed as that
single handle frame even though it has contents. -/
theorem C4_witness :
    MvRequest.push (.mk "READ" [("a", PyVal.float 1)] (some 42)) =
      ([Op.p_push_request_ptr 42], .ok ()) :=
  ((C4_push_forwards_handle (.mk "READ" [("a", PyVal.float 1)] (some 42))).1
    42 rfl (by decide)).1

/-! C7: the decoder's fixed tag table. -/

/-- C7: decoding handles exactly the fixed tag set 0..9: each tag in the set
maps to its host representation (number, string, the four File-Backed
Values, a Request pulled from its handle, a recursively decoded list — where
a per-element failure defeats the whole list — and Python `None`), the error
tag always raises with the engine message, and every tag outside the set
raises the unhandled-return-type error instead of returning a default. -/
theorem C7_decode_total (v : EngineValue) :
    (v.tag = 0 → value_from_metview v = .ok (.float v.num)) ∧
    (v.tag = 1 → value_from_metview v = .ok (.str v.strVal)) ∧
    (v.tag = 2 → value_from_metview v = .ok (.fieldset v.ptr v.dataPath)) ∧
    (v.tag = 3 → value_from_metview v = .ok (.req (MvRequest.fromHandle v.ereq v.reqPtr))) ∧
    (v.tag = 4 → value_from_metview v = .ok (.bufr v.ptr v.dataPath)) ∧
    (v.tag = 5 → value_from_metview v = .ok (.geopoints v.ptr v.dataPath)) ∧
    (v.tag = 6 → value_from_metview v = Except.map PyVal.list (list_from_metview v.elts)) ∧
    (v.tag = 7 → value_from_metview v = .ok (.netcdf v.ptr v.dataPath)) ∧
    (v.tag = 8 → value_from_metview v = .ok .pynone) ∧
    (v.tag = 9 → value_from_metview v = .error (.exception ("Metview error: " ++ v.errMsg))) ∧
    (¬(0 ≤ v.tag ∧ v.tag ≤ 9) →
      value_from_metview v =
        .error (.exception "value_from_metview got an unhandled return type")) := by
  obtain ⟨tag, ptr, num, strVal, reqPtr, ereq, elts, errMsg, dataPath⟩ := v
  simp only [EngineValue.tag, EngineValue.ptr, EngineValue.num, EngineValue.strVal,
    EngineValue.reqPtr, EngineValue.ereq, EngineValue.elts, EngineValue.errMsg,
    EngineValue.dataPath]
  refine ⟨?_, ?_, ?_, ?_, ?_, ?_, ?_, ?_, ?_, ?_, ?_⟩
  all_goals intro h
  case _ => subst h; simp [value_from_metview]
  case _ => subst h; simp [value_from_metview]
  case _ => subst h; simp [value_from_metview]
  case _ => subst h; simp [value_from_metview]
  case _ => subst h; simp [value_from_metview]
  case _ => subst h; simp [value_from_metview]
  case _ =>
    subst h
    cases hl : list_from_metview elts <;>
      simp [value_from_metview, hl, Except.map]
  case _ => subst h; simp [value_from_metview]
  case _ => subst h; simp [value_from_metview]
  case _ => subst h; simp [value_from_metview]
  case _ =>
    have h0 : tag ≠ 0 := by omega
    have h1 : tag ≠ 1 := by omega
    have h2 : tag ≠ 2 := by omega
    have h3 : tag ≠ 3 := by omega
    have h4 : tag ≠ 4 := by omega
    have h5 : tag ≠ 5 := by omega
    have h6 : tag ≠ 6 := by omega
    have h7 : tag ≠ 7 := by omega
    have h8 : tag ≠ 8 := by omega
    have h9 : tag ≠ 9 := by omega
    simp [value_from_metview, h0, h1, h2, h3, h4, h5, h6, h7, h8, h9]

/-- A concrete number-tagged engine result with payload 5. -/
def numVal : EngineValue := .mk 0 0 5 "" 0 ⟨"", [], []⟩ [] "" ""

/-- Witness for C7 at a concrete number-tagged engine result. -/
theorem C7_witness : value_from_metview numVal = .ok (.float 5) :=
  (C7_decode_total numVal).1 rfl

/-! C6: keyword folding and the total argument count. -/

lemma push_args_ok_length (args : List PyVal) (n : Nat)
    (h : (push_args args).2 = .ok n) : n = args.length := by
  induction args generalizing n with
  | nil =>
      simp [push_args] at h ⊢
      omega
  | cons a rest ih =>
      simp only [push_args] at h
      cases he : (push_arg a).2 with
      | error err => rw [he] at h; simp at h
      | ok m =>
          rw [he] at h
          simp only at h
          cases he2 : (push_args rest).2 with
          | error err => rw [he2] at h; simp [Except.map] at h
          | ok m2 =>
              rw [he2] at h
              simp [Except.map] at h
              have hm : m = 1 := push_arg_ok_one a m he
              have hm2 : m2 = rest.length := ih m2 he2
              simp [List.length_cons]
              omega

lemma fromDict_entries_length (d : List (String × PyVal)) :
    (MvRequest.fromDict d).entries.length = d.length := by
  simp [MvRequest.fromDict, MvRequest.entries, to_metview_style]

lemma dict_to_pushed_args_ok (d : MvRequest) (m : Nat)
    (h : (dict_to_pushed_args d).2 = .ok m) : m = 2 * d.entries.length := by
  simp only [dict_to_pushed_args] at h
  cases he : (dict_to_pushed_args_loop d.entries).2 with
  | error err => rw [he] at h; simp [Except.map] at h
  | ok u => rw [he] at h; simpa [Except.map] using h.symm

/-- C6: a named call with positional arguments and non-empty keyword
arguments folds the keywords into a single Request whose verb is
`"UNKNOWN"`, generates exactly 2 stack arguments per key/value pair, and
ends by invoking the engine function with total argument count
`args.length + 2 * kwargs.length`. -/
theorem C6_call_argument_count (fname : String) (args : List PyVal)
    (kwargs : List (String × PyVal)) (hk : kwargs ≠ [])
    (hok : (_call_function fname args kwargs).2 = .ok ()) :
    (MvRequest.fromDict kwargs).verb = "UNKNOWN" ∧
    (∀ m, (dict_to_pushed_args (MvRequest.fromDict kwargs)).2 = .ok m →
      m = 2 * kwargs.length) ∧
    (_call_function fname args kwargs).1.getLast? =
      some (Op.p_call_function fname (args.length + 2 * kwargs.length)) := by
  refine ⟨rfl, ?_, ?_⟩
  · intro m hm
    rw [dict_to_pushed_args_ok _ m hm, fromDict_entries_length]
  · have hklen : 0 < kwargs.length := List.length_pos.mpr hk
    simp only [_call_function] at hok ⊢
    cases hpa : (push_args args).2 with
    | error err =>
        rw [hpa] at hok
        simp at hok
    | ok n =>
        rw [hpa] at hok
        simp only [hklen, if_true] at hok ⊢
        cases hda : (dict_to_pushed_args (MvRequest.fromDict kwargs)).2 with
        | error err =>
            rw [hda] at hok
            simp at hok
        | ok dn =>
            have hn : n = args.length := push_args_ok_length args n hpa
            have hdn : dn = 2 * kwargs.length := by
              rw [dict_to_pushed_args_ok _ dn hda, fromDict_entries_length]
            subst hn
            subst hdn
            simp

/-! C8: nested lists through the boundary. -/

mutual

/-- Nesting depth of a host value, counting only list nesting. -/
def pyDepth : PyVal → Nat
  | .list xs => 1 + pyDepthL xs
  | _ => 0

def pyDepthL : List PyVal → Nat
  | [] => 0
  | x :: xs => max (pyDepth x) (pyDepthL xs)

end

mutual

/-- The value kinds that round-trip through the boundary by value: numbers,
strings and (nested) lists of them. -/
def scalarOrList : PyVal → Bool
  | .float _ => true
  | .str _ => true
  | .list xs => scalarOrListL xs
  | _ => false

def scalarOrListL : List PyVal → Bool
  | [] => true
  | x :: xs => scalarOrList x && scalarOrListL xs

end

def blankEReq : EngineRequest := ⟨"", [], []⟩

mutual

/-- The engine's own wire representation of a value-kind that round-trips by
value, following the decoder's fixed tag table (spec §4.3 and the §8
round-trip property): tag 0 for a number, tag 1 for a string, tag 6 with the
recursively represented elements for a list. Kinds outside that set get an
unused junk tag. -/
def wireOf : PyVal → EngineValue
  | .float x => .mk 0 0 x "" 0 blankEReq [] "" ""
  | .str s => .mk 1 0 0 s 0 blankEReq [] "" ""
  | .list xs => .mk 6 0 0 "" 0 blankEReq (wireOfL xs) "" ""
  | _ => .mk (-1) 0 0 "" 0 blankEReq [] "" ""

def wireOfL : List PyVal → List EngineValue
  | [] => []
  | x :: xs => wireOf x :: wireOfL xs

end

mutual

theorem decode_wireOf (v : PyVal) (h : scalarOrList v = true) :
    value_from_metview (wireOf v) = .ok v := by
  cases v
  case float x => simp [wireOf, value_from_metview]
  case str s => simp [wireOf, value_from_metview]
  case list xs =>
      have hL : scalarOrListL xs = true := by
        simpa [scalarOrList] using h
      have hrec := decode_wireOfL xs hL
      simp [wireOf, value_from_metview, hrec]
  all_goals simp [scalarOrList] at h

theorem decode_wireOfL (xs : List PyVal) (h : scalarOrListL xs = true) :
    list_from_metview (wireOfL xs) = .ok xs := by
  cases xs with
  | nil => simp [wireOfL, list_from_metview]
  | cons x rest =>
      have hx : scalarOrList x = true := by
        simp [scalarOrListL] at h
        exact h.1
      have hr : scalarOrListL rest = true := by
        simp [scalarOrListL] at h
        exact h.2
      have h1 := decode_wireOf x hx
      have h2 := decode_wireOfL rest hr
      simp [wireOfL, list_from_metview, h1, h2]

end

mutual

theorem scalar_push_ok (v : PyVal) (h : scalarOrList v = true) :
    (push_arg v).2 = .ok 1 := by
  cases v
  case float x => simp [push_arg]
  case str s => simp [push_arg]
  case list xs =>
      have hL : scalarOrListL xs = true := by
        simpa [scalarOrList] using h
      have hloop := scalar_push_okL xs hL 0
      cases hpl : push_list_from xs 0 with
      | mk t e =>
          rw [hpl] at hloop
          simp only at hloop
          subst hloop
          simp [push_arg, push_list, hpl, Except.map]
  all_goals simp [scalarOrList] at h

theorem scalar_push_okL (xs : List PyVal) (h : scalarOrListL xs = true) (i : Nat) :
    (push_list_from xs i).2 = .ok () := by
  cases xs with
  | nil => simp [push_list_from]
  | cons x rest =>
      have hx : scalarOrList x = true := by
        simp [scalarOrListL] at h
        exact h.1
      have hr : scalarOrListL rest = true := by
        simp [scalarOrListL] at h
        exact h.2
      have h1 := scalar_push_ok x hx
      have h2 := scalar_push_okL rest hr (i + 1)
      cases hp1 : push_arg x with
      | mk t1 e1 =>
          rw [hp1] at h1
          simp only at h1
          subst h1
          cases hp2 : push_list_from rest (i + 1) with
          | mk t2 e2 =>
              rw [hp2] at h2
              simp only at h2
              subst h2
              simp [push_list_from, hp1, hp2]

end

lemma push_list_head (xs : List PyVal) :
    (push_list xs).1.head? = some (Op.p_new_list xs.length) := by
  cases hpl : push_list_from xs 0 with
  | mk t e => cases e <;> simp [push_list, hpl]

lemma push_arg_list_fst (xs : List PyVal) :
    (push_arg (.list xs)).1 = (push_list xs).1 := by
  cases hpl : push_list xs with
  | mk t e => simp [push_arg, hpl]

/-- A concrete nested list of depth 2 with three top-level elements. -/
def nested3 : List PyVal :=
  [.list [.float 1], .list [.float 2], .list [.float 3]]

/-- C8 counterexample: encoding the depth-2 list with three top-level
elements produces argument count 1 (a list is pushed as a single stack
value), not 3 — the total argument count does not equal the number of
top-level elements. -/
theorem C8_counterexample :
    pyDepth (.list nested3) = 2 ∧
    nested3.length = 3 ∧
    (push_arg (.list nested3)).2 = .ok 1 ∧
    (push_arg (.list nested3)).2 ≠ .ok nested3.length := by
  have hs : scalarOrList (.list nested3) = true := by
    simp [nested3, scalarOrList, scalarOrListL]
  have hok := scalar_push_ok (.list nested3) hs
  refine ⟨?_, rfl, hok, ?_⟩
  · simp [nested3, pyDepth, pyDepthL]
  · rw [hok]
    simp [nested3]

/-- C8 amended: encoding a nested list (depth ≥ 2, with scalar leaves)
contributes argument count 1 — the list is pushed as a single stack value —
while the freshly allocated engine-side list has length equal to the number
of top-level elements; decoding the corresponding nested engine result
reconstructs the same nesting and element order. -/
theorem C8_amended_nested_list (xs : List PyVal)
    (_hd : 2 ≤ pyDepth (.list xs)) (hs : scalarOrList (.list xs) = true) :
    (push_arg (.list xs)).1.head? = some (Op.p_new_list xs.length) ∧
    (push_arg (.list xs)).2 = .ok 1 ∧
    value_from_metview (wireOf (.list xs)) = .ok (.list xs) := by
  refine ⟨?_, scalar_push_ok (.list xs) hs, decode_wireOf (.list xs) hs⟩
  rw [push_arg_list_fst]
  exact push_list_head xs

/-- Witness for C8 at a depth-2 list with two top-level elements. -/
theorem C8_witness :
    (push_arg (.list [.list [.float 1, .str "a"], .float 2])).1.head? =
      some (Op.p_new_list 2) ∧
    (push_arg (.list [.list [.float 1, .str "a"], .float 2])).2 = .ok 1 ∧
    value_from_metview (wireOf (.list [.list [.float 1, .str "a"], .float 2])) =
      .ok (.list [.list [.float 1, .str "a"], .float 2]) :=
  C8_amended_nested_list [.list [.float 1, .str "a"], .float 2]
    (by simp [pyDepth, pyDepthL])
    (by simp [scalarOrList, scalarOrListL])

/-- Witness for C6 at the concrete call `f(2.0, a='x')`: one positional and
one keyword argument, invoked with argument count 3. -/
theorem C6_witness :
    (_call_function "f" [PyVal.float 2] [("a", PyVal.str "x")]).1.getLast? =
      some (Op.p_call_function "f" 3) := by
  have h := C6_call_argument_count "f" [PyVal.float 2] [("a", PyVal.str "x")]
    (by simp)
    (by simp [_call_function, push_args, push_arg, dict_to_pushed_args,
      dict_to_pushed_args_loop, MvRequest.fromDict, MvRequest.entries,
      to_metview_style, to_metview_style_val, push_str, Except.map])
  simpa using h.2.2
